import Mathlib

/-!
Shallow embedding of the api-leads repository's security and ingestion logic:

* `src/unnamed/part_003` — HMAC signatures (`generateSignature`,
  `verifySignature`), timestamp freshness (`verifyTimestamp`) and the
  in-memory rate limiter (`checkRateLimit`);
* `src/app/api/health/route.ts` — `checkCORS`, `checkAPIKey`, the POST
  handler's ordered security-gate chain, and the stored-lead projection;
* `src/unnamed/part_004` — the Zod `LeadSchema`.

Conventions: bytes are `Nat` values below 256; 32-bit words are `Nat` values
reduced modulo 2 ^ 32; a JavaScript string-or-null value is `Option String`,
and JS falsiness of the empty string is modelled explicitly; `Date.now()` is
passed in as an explicit `now : Int` parameter; NaN (the result of a failed
`parseInt`) is modelled as `none : Option Int`.
-/

namespace Leads

/-! ## 32-bit word helpers for SHA-256, the model of Node `createHmac('sha256', …)` -/

def w32 (n : Nat) : Nat := n % 4294967296

def rotr (n x : Nat) : Nat := w32 ((x >>> n) ||| (x <<< (32 - n)))

def bnot32 (x : Nat) : Nat := x ^^^ 4294967295

def chF (x y z : Nat) : Nat := w32 ((x &&& y) ^^^ (bnot32 x &&& z))

def majF (x y z : Nat) : Nat := w32 ((x &&& y) ^^^ (x &&& z) ^^^ (y &&& z))

def bsig0 (x : Nat) : Nat := rotr 2 x ^^^ rotr 13 x ^^^ rotr 22 x

def bsig1 (x : Nat) : Nat := rotr 6 x ^^^ rotr 11 x ^^^ rotr 25 x

def ssig0 (x : Nat) : Nat := rotr 7 x ^^^ rotr 18 x ^^^ (x >>> 3)

def ssig1 (x : Nat) : Nat := rotr 17 x ^^^ rotr 19 x ^^^ (x >>> 10)

/-- Fuelled binary search computing the integer cube root (largest `r` with
`r ^ 3 ≤ n`); used to derive the FIPS 180-4 round constants. -/
def icbrtGo : Nat → Nat → Nat → Nat → Nat
  | 0, _, lo, _ => lo
  | fuel + 1, n, lo, hi =>
    if hi ≤ lo + 1 then lo
    else
      let mid := (lo + hi) / 2
      if mid * mid * mid ≤ n then icbrtGo fuel n mid hi else icbrtGo fuel n lo mid

def icbrt (n : Nat) : Nat := icbrtGo 256 n 0 (n + 1)

/-- The first 64 primes, whose cube-root (resp. square-root) fractional bits
give the SHA-256 round constants (resp. initial hash value), per FIPS 180-4. -/
def primes64 : List Nat :=
  [2, 3, 5, 7, 11, 13, 17, 19, 23, 29, 31, 37, 41, 43, 47, 53,
   59, 61, 67, 71, 73, 79, 83, 89, 97, 101, 103, 107, 109, 113, 127, 131,
   137, 139, 149, 151, 157, 163, 167, 173, 179, 181, 191, 193, 197, 199, 211, 223,
   227, 229, 233, 239, 241, 251, 257, 263, 269, 271, 277, 281, 283, 293, 307, 311]

/-- Round constants: first 32 bits of the fractional parts of the cube roots
of the first 64 primes (`⌊2^32 · cbrt p⌋ mod 2^32`). -/
def roundK : List Nat :=
  primes64.map fun p => icbrt (p * 79228162514264337593543950336) % 4294967296

/-- The eight 32-bit working registers of SHA-256. -/
structure Hash8 where
  a : Nat
  b : Nat
  c : Nat
  d : Nat
  e : Nat
  f : Nat
  g : Nat
  h : Nat

/-- Initial hash value: first 32 bits of the fractional parts of the square
roots of the first 8 primes. -/
def hInit (p : Nat) : Nat := Nat.sqrt (p * 18446744073709551616) % 4294967296

def initH : Hash8 :=
  ⟨hInit 2, hInit 3, hInit 5, hInit 7, hInit 11, hInit 13, hInit 17, hInit 19⟩

/-- Pack big-endian groups of four bytes into 32-bit words. -/
def toWords : List Nat → List Nat
  | b0 :: b1 :: b2 :: b3 :: rest =>
    (((b0 * 256 + b1) * 256 + b2) * 256 + b3) :: toWords rest
  | _ => []

/-- Extend the message schedule by one word. -/
def stepW (ws : List Nat) : List Nat :=
  let n := ws.length
  ws ++ [w32 (ssig1 (ws.getD (n - 2) 0) + ws.getD (n - 7) 0 +
              ssig0 (ws.getD (n - 15) 0) + ws.getD (n - 16) 0)]

def iterGrow : Nat → (List Nat → List Nat) → List Nat → List Nat
  | 0, _, ws => ws
  | n + 1, f, ws => iterGrow n f (f ws)

/-- The 64-word message schedule of one block. -/
def schedule (block16 : List Nat) : List Nat := iterGrow 48 stepW block16

/-- One compression round. -/
def roundStep (s : Hash8) (kw : Nat × Nat) : Hash8 :=
  let t1 := w32 (s.h + bsig1 s.e + chF s.e s.f s.g + kw.1 + kw.2)
  let t2 := w32 (bsig0 s.a + majF s.a s.b s.c)
  ⟨w32 (t1 + t2), s.a, s.b, s.c, w32 (s.d + t1), s.e, s.f, s.g⟩

/-- Compress one 64-byte block into the running hash. -/
def processBlock (hs : Hash8) (block : List Nat) : Hash8 :=
  let ws := schedule (toWords block)
  let fin := (roundK.zip ws).foldl roundStep hs
  ⟨w32 (hs.a + fin.a), w32 (hs.b + fin.b), w32 (hs.c + fin.c), w32 (hs.d + fin.d),
   w32 (hs.e + fin.e), w32 (hs.f + fin.f), w32 (hs.g + fin.g), w32 (hs.h + fin.h)⟩

/-- Big-endian 8-byte encoding of a (64-bit) length. -/
def be64 (n : Nat) : List Nat :=
  [(n >>> 56) % 256, (n >>> 48) % 256, (n >>> 40) % 256, (n >>> 32) % 256,
   (n >>> 24) % 256, (n >>> 16) % 256, (n >>> 8) % 256, n % 256]

/-- Split a byte list into 64-byte blocks (fuelled by the list length). -/
def chunks64 : Nat → List Nat → List (List Nat)
  | 0, _ => []
  | _ + 1, [] => []
  | fuel + 1, bs => bs.take 64 :: chunks64 fuel (bs.drop 64)

/-- Big-endian bytes of one 32-bit word. -/
def wordBytes (w : Nat) : List Nat :=
  [(w >>> 24) % 256, (w >>> 16) % 256, (w >>> 8) % 256, w % 256]

/-- SHA-256 of a byte list, per FIPS 180-4. -/
def sha256 (msg : List Nat) : List Nat :=
  let l := msg.length
  let padded := msg ++ 128 :: (List.replicate ((64 + 55 - l % 64) % 64) 0 ++ be64 (8 * l))
  let fin := (chunks64 padded.length padded).foldl processBlock initH
  wordBytes fin.a ++ wordBytes fin.b ++ wordBytes fin.c ++ wordBytes fin.d ++
  wordBytes fin.e ++ wordBytes fin.f ++ wordBytes fin.g ++ wordBytes fin.h

/-- HMAC-SHA256 (RFC 2104), the model of Node `createHmac('sha256', key)`. -/
def hmacSha256 (key msg : List Nat) : List Nat :=
  let k1 := if 64 < key.length then sha256 key else key
  let k0 := k1 ++ List.replicate (64 - k1.length) 0
  let ipad := k0.map fun b => b ^^^ 54
  let opad := k0.map fun b => b ^^^ 92
  sha256 (opad ++ sha256 (ipad ++ msg))

/-! ## Byte/string conversions: UTF-8 and hex -/

/-- UTF-8 encoding of one character (Node `Buffer` default encoding). -/
def utf8Bytes (c : Char) : List Nat :=
  let n := c.toNat
  if n < 128 then [n]
  else if n < 2048 then [192 ||| (n >>> 6), 128 ||| (n &&& 63)]
  else if n < 65536 then
    [224 ||| (n >>> 12), 128 ||| ((n >>> 6) &&& 63), 128 ||| (n &&& 63)]
  else
    [240 ||| (n >>> 18), 128 ||| ((n >>> 12) &&& 63),
     128 ||| ((n >>> 6) &&& 63), 128 ||| (n &&& 63)]

def strBytesAux : List Char → List Nat
  | [] => []
  | c :: cs => utf8Bytes c ++ strBytesAux cs

/-- UTF-8 bytes of a string. -/
def strBytes (s : String) : List Nat := strBytesAux s.data

/-- Lower-case hex digit for a nibble, as produced by `digest('hex')`. -/
def hexChar (n : Nat) : Char :=
  if n < 10 then Char.ofNat (48 + n) else Char.ofNat (87 + n)

def hexChars : List Nat → List Char
  | [] => []
  | b :: bs => hexChar ((b / 16) % 16) :: hexChar (b % 16) :: hexChars bs

/-- Hex encoding of a byte list (Node `digest('hex')`). -/
def hexEncode (bs : List Nat) : String := String.mk (hexChars bs)

/-- Value of one hex digit; `none` on a non-hex character.  Node hex decoding
is case-insensitive. -/
def hexDigitVal (c : Char) : Option Nat :=
  if '0' ≤ c ∧ c ≤ '9' then some (c.toNat - 48)
  else if 'a' ≤ c ∧ c ≤ 'f' then some (c.toNat - 87)
  else if 'A' ≤ c ∧ c ≤ 'F' then some (c.toNat - 55)
  else none

/-- Node `Buffer.from(s, 'hex')`: decode complete pairs of hex digits and
truncate at the first invalid character or incomplete pair (it never throws;
`Buffer.from('1ag123', 'hex')` yields the single byte `1a`). -/
def hexDecode : List Char → List Nat
  | c1 :: c2 :: rest =>
    match hexDigitVal c1, hexDigitVal c2 with
    | some hi, some lo => (16 * hi + lo) :: hexDecode rest
    | _, _ => []
  | _ => []

/-! ## Signer/Verifier — `src/unnamed/part_003` lines 14-44

The `secret || getWebhookSecret()` environment fallback is resolved by the
caller; these definitions take the resolved secret key directly. -/

/-- `generateSignature` (part_003 lines 14-19):
`createHmac('sha256', secretKey).update(payload).digest('hex')`. -/
def generateSignature (payload secretKey : String) : String :=
  hexEncode (hmacSha256 (strBytes secretKey) (strBytes payload))

/-- `verifySignature` (part_003 lines 24-44): recompute the expected
signature, hex-decode both candidate and expected (Node semantics, which
never throw on string input), return `false` on a length mismatch, else
compare byte-wise (`timingSafeEqual`, which with equal lengths is equality
and does not throw). -/
def verifySignature (payload signature secretKey : String) : Bool :=
  let expectedSignature := generateSignature payload secretKey
  let signatureBuffer := hexDecode signature.data
  let expectedBuffer := hexDecode expectedSignature.data
  if signatureBuffer.length ≠ expectedBuffer.length then false
  else signatureBuffer == expectedBuffer

/-! ## Freshness Checker — `src/unnamed/part_003` lines 49-55 -/

/-- `verifyTimestamp` (part_003 lines 49-55): `Math.abs(now - timestamp) <
5 * 60 * 1000`, with `Date.now()` passed in explicitly as `now`. -/
def verifyTimestamp (now timestamp : Int) : Bool :=
  decide ((now - timestamp).natAbs < 5 * 60 * 1000)

/-- The same check applied to the result of `parseInt`: a failed parse is
NaN (`none`), and in JS `Math.abs(now - NaN) = NaN` with `NaN < 300000`
false, so the check returns `false`. -/
def verifyTimestampNum (now : Int) : Option Int → Bool
  | some t => verifyTimestamp now t
  | none => false

/-- JS `parseInt(s, 10)`: skip leading whitespace, read an optional sign,
then the longest prefix of decimal digits; NaN (`none`) if there is none. -/
def isJsSpace (c : Char) : Bool :=
  c == ' ' || c == '\t' || c == '\n' || c == '\r' || c == '\x0b' || c == '\x0c'

def natOfDigits (ds : List Char) : Nat :=
  ds.foldl (fun a c => a * 10 + (c.toNat - 48)) 0

def parseIntDec (s : String) : Option Int :=
  let cs := s.data.dropWhile isJsSpace
  let signAndRest : Int × List Char :=
    match cs with
    | '-' :: r => (-1, r)
    | '+' :: r => (1, r)
    | _ => (1, cs)
  let ds := signAndRest.2.takeWhile Char.isDigit
  if ds = [] then none else some (signAndRest.1 * (natOfDigits ds : Int))

/-! ## Rate Limiter — `src/unnamed/part_003` lines 61-81

The module-level `requestCounts : Map<string, {count, resetAt}>` is modelled
as an association list threaded through the calls. -/

structure RateRecord where
  count : Nat
  resetAt : Int
deriving DecidableEq

abbrev RLState := List (String × RateRecord)

/-- `requestCounts.get(identifier)`. -/
def rlGet : RLState → String → Option RateRecord
  | [], _ => none
  | (k, r) :: rest, key => if k == key then some r else rlGet rest key

/-- `requestCounts.set(identifier, v)` (and the in-place `record.count++`,
which updates the entry under its key). -/
def rlSet : RLState → String → RateRecord → RLState
  | [], key, v => [(key, v)]
  | (k, r) :: rest, key, v =>
    if k == key then (key, v) :: rest else (k, r) :: rlSet rest key v

/-- `checkRateLimit` (part_003 lines 63-81): fixed-window counter.  If no
entry exists or `now > resetAt`, reset to count 1 with expiry `now +
windowMs` and allow; else deny iff `count ≥ limit`, otherwise increment and
allow. -/
def checkRateLimit (st : RLState) (now : Int) (identifier : String)
    (limit : Nat) (windowMs : Int) : Bool × RLState :=
  match rlGet st identifier with
  | none => (true, rlSet st identifier ⟨1, now + windowMs⟩)
  | some record =>
    if now > record.resetAt then
      (true, rlSet st identifier ⟨1, now + windowMs⟩)
    else if record.count ≥ limit then (false, st)
    else (true, rlSet st identifier ⟨record.count + 1, record.resetAt⟩)

/-- Run a sequence of `checkRateLimit` calls for one identifier at the given
instants, collecting the results. -/
def rlRun (key : String) (limit : Nat) (windowMs : Int) :
    RLState → List Int → List Bool × RLState
  | st, [] => ([], st)
  | st, t :: ts =>
    let r := checkRateLimit st t key limit windowMs
    let rest := rlRun key limit windowMs r.2 ts
    (r.1 :: rest.1, rest.2)

/-- Run an arbitrary sequence of calls `(identifier, now, windowMs)` sharing
one `limit`. -/
def rlRunCalls (limit : Nat) : RLState → List (String × Int × Int) → RLState
  | st, [] => st
  | st, c :: rest => rlRunCalls limit (checkRateLimit st c.2.1 c.1 limit c.2.2).2 rest

/-! ## Access Gate — `src/app/api/health/route.ts` lines 108-128

`ALLOWED_ORIGINS`/`VALID_API_KEYS` (the env lists, already split and
filtered) are passed in as explicit lists. -/

/-- JS `hay.includes(needle)`: substring containment. -/
def strIncludes (hay needle : String) : Bool :=
  (List.range (hay.data.length + 1)).any fun i => needle.data.isPrefixOf (hay.data.drop i)

/-- `checkCORS` (route.ts lines 117-120): `if (!origin) return false;` then
`ALLOWED_ORIGINS.some(allowed => origin.includes(allowed))`.  A `null` or
empty origin is falsy. -/
def checkCORS (allowedOrigins : List String) (origin : Option String) : Bool :=
  match origin with
  | none => false
  | some o => if o = "" then false else allowedOrigins.any fun allowed => strIncludes o allowed

/-- `checkAPIKey` (route.ts lines 125-128): falsy key denies, else exact
membership in the configured key list. -/
def checkAPIKey (validApiKeys : List String) (apiKey : Option String) : Bool :=
  match apiKey with
  | none => false
  | some k => if k = "" then false else validApiKeys.contains k

/-! ## JS falsiness helpers for string-or-null values -/

/-- JS `a || b` on string-or-null values: `null`, `undefined` and `""` are
falsy. -/
def jsOrElse (a b : Option String) : Option String :=
  match a with
  | some s => if s = "" then b else some s
  | none => b

/-- JS `a || b` where the fallback is a plain string. -/
def jsOrStr (a : Option String) (b : String) : String :=
  match a with
  | some s => if s = "" then b else s
  | none => b

/-- JS `a || b` on numbers: `0` (and NaN, excluded here since JSON cannot
carry it) is falsy. -/
def jsOrNum (a : Option Int) (b : Option Int) : Option Int :=
  match a with
  | some n => if n = 0 then b else some n
  | none => b

/-- JS falsiness test for a string-or-null header value. -/
def isFalsy : Option String → Bool
  | none => true
  | some s => s == ""

/-! ## The POST handler's security-gate chain — route.ts lines 157-229 -/

structure Config where
  allowedOrigins : List String
  validApiKeys : List String
  webhookSecret : String

structure WebRequest where
  origin : Option String
  apiKey : Option String
  xForwardedFor : Option String
  xRealIp : Option String
  body : String
  signature : Option String
  timestamp : Option String
  userAgent : Option String

/-- route.ts line 182: `x-forwarded-for || x-real-ip || 'unknown'`. -/
def resolveIp (req : WebRequest) : String :=
  jsOrStr (jsOrElse req.xForwardedFor req.xRealIp) "unknown"

/-- Outcome of the POST handler's ordered gate chain (route.ts lines
161-229); `passed` carries the raw body, the parsed timestamp and the
resolved IP into the JSON/validation/storage stage. -/
inductive GateResult where
  | corsRejected
  | invalidApiKey
  | rateLimited
  | emptyBody
  | missingHeaders
  | expired
  | invalidSignature
  | passed (bodyText : String) (timestampNum : Option Int) (ip : String)
deriving DecidableEq

/-- The HTTP status and error string the handler returns for each rejecting
gate (route.ts lines 163-229); `none` for `passed`. -/
def gateResponse : GateResult → Option (Nat × String)
  | .corsRejected => some (403, "Origin not allowed")
  | .invalidApiKey => some (401, "Invalid API Key")
  | .rateLimited => some (429, "Too many requests")
  | .emptyBody => some (400, "Empty body")
  | .missingHeaders => some (401, "Missing security headers")
  | .expired => some (401, "Request expired")
  | .invalidSignature => some (401, "Invalid signature")
  | .passed _ _ _ => none

/-- The POST handler's gate chain (route.ts lines 157-229), in source order:
CORS, API key, rate limit (which updates the counter map even when a later
gate rejects), body presence, security-header presence (falsy check), then
timestamp freshness on `parseInt(timestamp, 10)`, then HMAC signature over
the raw body. -/
def securityGates (cfg : Config) (now : Int) (st : RLState) (req : WebRequest) :
    GateResult × RLState :=
  if checkCORS cfg.allowedOrigins req.origin then
    if checkAPIKey cfg.validApiKeys req.apiKey then
      let ip := resolveIp req
      let rl := checkRateLimit st now ip 20 60000
      if rl.1 then
        if req.body = "" then (.emptyBody, rl.2)
        else if isFalsy req.signature || isFalsy req.timestamp then (.missingHeaders, rl.2)
        else
          let sig := req.signature.getD ""
          let ts := req.timestamp.getD ""
          let timestampNum := parseIntDec ts
          if verifyTimestampNum now timestampNum then
            if verifySignature req.body sig cfg.webhookSecret then
              (.passed req.body timestampNum ip, rl.2)
            else (.invalidSignature, rl.2)
          else (.expired, rl.2)
      else (.rateLimited, rl.2)
    else (.invalidApiKey, st)
  else (.corsRejected, st)

/-! ## Payload Validator — the Zod `LeadSchema`, `src/unnamed/part_004` lines 6-36 -/

/-- The decoded lead record, the input shape of `LeadSchema`. -/
structure LeadRaw where
  name : String
  email : Option String
  phone : Option String
  city : Option String
  street : Option String
  message : Option String
  notes : Option String
  source : Option String
  utmSource : Option String
  utmMedium : Option String
  utmCampaign : Option String
  utmTerm : Option String
  utmContent : Option String
  timestamp : Option Int

structure Issue where
  path : String
  message : String
deriving DecidableEq

/-- Zod's email check (the classic email regular expression: local part of
word characters, apostrophes, `+`, `-` and dots, not starting with a dot, no
two consecutive dots, not ending the local part with a dot or apostrophe;
then `@`; then dot-separated alphanumeric-and-hyphen labels ending in an
alphabetic top-level label of length at least 2). -/
def isLocalChar (c : Char) : Bool :=
  c.isAlphanum || c == '_' || c == '\'' || c == '+' || c == '-' || c == '.'

def isLocalEnd (c : Char) : Bool :=
  c.isAlphanum || c == '_' || c == '+' || c == '-'

def noDoubleDot : List Char → Bool
  | '.' :: '.' :: _ => false
  | _ :: rest => noDoubleDot rest
  | [] => true

/-- Split a character list at a separator character. -/
def splitChar (sep : Char) : List Char → List (List Char)
  | [] => [[]]
  | c :: rest =>
    let r := splitChar sep rest
    if c == sep then [] :: r
    else
      match r with
      | [] => [[c]]
      | g :: gs => (c :: g) :: gs

def localOk (l : List Char) : Bool :=
  match l with
  | [] => false
  | c :: _ => !(c == '.') && l.all isLocalChar && isLocalEnd (l.getLastD '.')

def labelOk (l : List Char) : Bool :=
  match l with
  | [] => false
  | c :: rest => c.isAlphanum && rest.all fun d => d.isAlphanum || d == '-'

def tldOk (l : List Char) : Bool :=
  decide (2 ≤ l.length) && l.all Char.isAlpha

def isValidEmail (s : String) : Bool :=
  match splitChar '@' s.data with
  | [localPart, domain] =>
    localOk localPart && noDoubleDot s.data &&
    (let parts := splitChar '.' domain
     decide (2 ≤ parts.length) && parts.dropLast.all labelOk && tldOk (parts.getLastD []))
  | _ => false

/-- `name: z.string().min(2, …)` (part_004 line 8). -/
def nameIssues (d : LeadRaw) : List Issue :=
  if d.name.length < 2 then [⟨"name", "El nombre debe tener al menos 2 caracteres"⟩] else []

/-- `email: z.string().email(…).optional()` (part_004 line 9). -/
def emailIssues (d : LeadRaw) : List Issue :=
  match d.email with
  | some e => if isValidEmail e then [] else [⟨"email", "Email inválido"⟩]
  | none => []

/-- `phone: z.string().min(9, …).optional()` (part_004 line 10). -/
def phoneIssues (d : LeadRaw) : List Issue :=
  match d.phone with
  | some p => if p.length < 9 then [⟨"phone", "Teléfono inválido"⟩] else []
  | none => []

/-- The field-level issues `LeadSchema` collects (part_004 lines 6-29). -/
def leadIssues (d : LeadRaw) : List Issue :=
  nameIssues d ++ emailIssues d ++ phoneIssues d

/-- JS truthiness of an optional string field, as used by the `.refine`. -/
def jsTruthy : Option String → Bool
  | none => false
  | some s => !(s == "")

/-- The `.refine((data) => data.email || data.phone, …)` issue (part_004
lines 30-36), evaluated only when the base object parse succeeds. -/
def leadRefineIssues (d : LeadRaw) : List Issue :=
  if jsTruthy d.email || jsTruthy d.phone then []
  else [⟨"email", "Debe proporcionar al menos email o teléfono"⟩]

/-- `LeadSchema.safeParse`: base field checks first; the refinement runs only
if they all pass. -/
def leadSafeParse (d : LeadRaw) : Except (List Issue) LeadRaw :=
  let base := leadIssues d
  if base.isEmpty then
    let r := leadRefineIssues d
    if r.isEmpty then .ok d else .error r
  else .error base

/-! ## Stored-lead projection — route.ts lines 254-275 and part_004 lines 43-63 -/

structure LeadMetadata where
  utm_source : Option String
  utm_medium : Option String
  utm_campaign : Option String
  utm_term : Option String
  utm_content : Option String
  ip_address : String
  user_agent : Option String
  form_timestamp : Option Int
  received_at : String

structure LeadDB where
  name : String
  email : Option String
  phone : Option String
  city : Option String
  street : Option String
  notes : Option String
  status : String
  priority : String
  source : String
  metadata : LeadMetadata

/-- The `leadDB` object built at route.ts lines 254-275 from the validated
lead; note line 260: `notes: validatedLead.message || validatedLead.notes`. -/
def mkLeadDB (validatedLead : LeadRaw) (origin : Option String) (ip : String)
    (userAgent : Option String) (timestampNum : Option Int) (receivedAt : String) :
    LeadDB :=
  { name := validatedLead.name
    email := validatedLead.email
    phone := validatedLead.phone
    city := validatedLead.city
    street := validatedLead.street
    notes := jsOrElse validatedLead.message validatedLead.notes
    status := "Recibido"
    priority := "media"
    source := jsOrStr (jsOrElse validatedLead.source origin) "api-webhook"
    metadata :=
      { utm_source := validatedLead.utmSource
        utm_medium := validatedLead.utmMedium
        utm_campaign := validatedLead.utmCampaign
        utm_term := validatedLead.utmTerm
        utm_content := validatedLead.utmContent
        ip_address := ip
        user_agent := jsOrElse userAgent none
        form_timestamp := jsOrNum validatedLead.timestamp timestampNum
        received_at := receivedAt } }

/-! ## Lemmas about hex encoding and signature verification -/

lemma hexDigitVal_hexChar : ∀ n < 16, hexDigitVal (hexChar n) = some n := by decide

lemma hexDecode_cons_cons (c1 c2 : Char) (rest : List Char) (hi lo : Nat)
    (h1 : hexDigitVal c1 = some hi) (h2 : hexDigitVal c2 = some lo) :
    hexDecode (c1 :: c2 :: rest) = (16 * hi + lo) :: hexDecode rest := by
  simp [hexDecode, h1, h2]

/-- Decoding an encoded byte list consumes exactly the encoded pairs and then
continues with the tail (so trailing garbage after a full encoding is
truncated, as Node does). -/
lemma hexDecode_hexChars (bs : List Nat) (t : List Char) :
    hexDecode (hexChars bs ++ t) = bs.map (fun b => b % 256) ++ hexDecode t := by
  induction bs with
  | nil => simp [hexChars]
  | cons b bs ih =>
    have h1 : (b / 16) % 16 < 16 := Nat.mod_lt _ (by norm_num)
    have h2 : b % 16 < 16 := Nat.mod_lt _ (by norm_num)
    have hb : 16 * ((b / 16) % 16) + b % 16 = b % 256 := by omega
    calc hexDecode (hexChars (b :: bs) ++ t)
        = (16 * ((b / 16) % 16) + b % 16) :: hexDecode (hexChars bs ++ t) := by
          exact hexDecode_cons_cons _ _ _ _ _ (hexDigitVal_hexChar _ h1) (hexDigitVal_hexChar _ h2)
      _ = (b % 256) :: (bs.map (fun b => b % 256) ++ hexDecode t) := by rw [hb, ih]
      _ = (b :: bs).map (fun b => b % 256) ++ hexDecode t := by simp

lemma hexDecode_hexChars_nil (bs : List Nat) :
    hexDecode (hexChars bs) = bs.map (fun b => b % 256) := by
  have := hexDecode_hexChars bs []
  simpa [hexDecode] using this

lemma sha256_length (msg : List Nat) : (sha256 msg).length = 32 := by
  simp [sha256, wordBytes]

lemma hmacSha256_length (key msg : List Nat) : (hmacSha256 key msg).length = 32 := by
  unfold hmacSha256
  exact sha256_length _

lemma generateSignature_data (payload secretKey : String) :
    (generateSignature payload secretKey).data =
      hexChars (hmacSha256 (strBytes secretKey) (strBytes payload)) := rfl

/-- Characterisation of `verifySignature`: it accepts exactly the candidates
whose Node-hex decoding equals the decoding of the expected signature, which
is the expected 32-byte MAC. -/
lemma verifySignature_eq_true_iff (p s k : String) :
    verifySignature p s k = true ↔
      hexDecode s.data = hexDecode (generateSignature p k).data ∧
      (hexDecode s.data).length = 32 := by
  have hlen : (hexDecode (generateSignature p k).data).length = 32 := by
    rw [generateSignature_data, hexDecode_hexChars_nil]
    simp [hmacSha256_length]
  simp only [verifySignature]
  by_cases h : (hexDecode s.data).length = (hexDecode (generateSignature p k).data).length
  · rw [if_neg (by simp [h]), beq_iff_eq]
    exact ⟨fun he => ⟨he, by rw [h, hlen]⟩, fun hx => hx.1⟩
  · rw [if_pos h]
    exact ⟨fun hf => absurd hf (by simp),
           fun hx => absurd (congrArg List.length hx.1) h⟩

/-- C1: verifying the signature produced by signing the same payload with the
same secret always succeeds. -/
theorem C1_sign_verify_roundtrip (payload secretKey : String) :
    verifySignature payload (generateSignature payload secretKey) secretKey = true := by
  simp [verifySignature]

lemma string_data_append (s t : String) : (s ++ t).data = s.data ++ t.data := rfl

/-- C3 counterexample: the candidate obtained by appending the non-hex text
`"zz"` to a correct signature is malformed hex (it contains `'z'`, which is
not a hex digit), yet `verifySignature` accepts it, because Node's
`Buffer.from(…, 'hex')` silently truncates at the first invalid character. -/
theorem C3_malformed_hex_accepted_cex :
    verifySignature "test" (generateSignature "test" "secret" ++ "zz") "secret" = true ∧
    'z' ∈ (generateSignature "test" "secret" ++ "zz").data ∧
    hexDigitVal 'z' = none := by
  have hdata : (generateSignature "test" "secret" ++ "zz").data =
      hexChars (hmacSha256 (strBytes "secret") (strBytes "test")) ++ ['z', 'z'] := by
    rw [string_data_append, generateSignature_data]
  have hzz : hexDecode ['z', 'z'] = [] := by decide
  refine ⟨?_, ?_, by decide⟩
  · rw [verifySignature_eq_true_iff, hdata, hexDecode_hexChars, hzz,
      generateSignature_data, hexDecode_hexChars_nil]
    simp [hmacSha256_length]
  · rw [hdata]
    simp

/-- C3 (amended): `verifySignature` is a total boolean function (nothing in
its Node realisation throws on string input), and it accepts exactly the
candidates whose Node-hex decoding — the longest leading run of complete hex
digit pairs — equals the 32-byte expected MAC.  Hence odd-length hex, short
or overlong hex, and garbage that decodes to fewer than 32 bytes are all
rejected, but a malformed candidate whose valid hex prefix decodes to
exactly the expected MAC is accepted. -/
theorem C3_verify_malformed_amended (p s k : String) :
    verifySignature p s k = true ↔
      hexDecode s.data = hexDecode (generateSignature p k).data ∧
      (hexDecode s.data).length = 32 :=
  verifySignature_eq_true_iff p s k

/-- C4: `verifyTimestamp` accepts exactly the timestamps within a strict
symmetric 300000 ms window around `now`: it is true iff `|now − T| <
300000`, false at a skew of exactly 300000 ms in either direction, and
symmetric in past versus future skew. -/
theorem C4_timestamp_window (now T : Int) :
    (verifyTimestamp now T = true ↔ |now - T| < 300000) ∧
    verifyTimestamp now (now - 300000) = false ∧
    verifyTimestamp now (now + 300000) = false ∧
    (∀ d : Int, verifyTimestamp now (now - d) = verifyTimestamp now (now + d)) := by
  refine ⟨?_, ?_, ?_, ?_⟩
  · simp only [verifyTimestamp, decide_eq_true_eq]
    rw [abs_lt]
    omega
  · simp only [verifyTimestamp, decide_eq_false_iff_not]
    omega
  · simp only [verifyTimestamp, decide_eq_false_iff_not]
    omega
  · intro d
    simp only [verifyTimestamp, decide_eq_decide]
    omega

/-! ## Lemmas about the access gate -/

lemma strIncludes_eq_true_iff (hay needle : String) :
    strIncludes hay needle = true ↔
      ∃ pre post : List Char, hay.data = pre ++ needle.data ++ post := by
  unfold strIncludes
  rw [List.any_eq_true]
  constructor
  · rintro ⟨i, _, hpre⟩
    rw [List.isPrefixOf_iff_prefix] at hpre
    obtain ⟨t, ht⟩ := hpre
    exact ⟨hay.data.take i, t, by rw [List.append_assoc, ht, List.take_append_drop]⟩
  · rintro ⟨pre, post, h⟩
    have hlen : hay.data.length = pre.length + needle.data.length + post.length := by
      rw [h]; simp; omega
    refine ⟨pre.length, by rw [List.mem_range]; omega, ?_⟩
    rw [List.isPrefixOf_iff_prefix, h, List.append_assoc, List.drop_left]
    exact List.prefix_append _ _

/-- C7: `checkCORS` allows exactly the non-empty origins containing some
configured allow-list entry as a substring; a missing or empty origin is
always denied; in particular `"https://app.example.com"` passes against the
allow-list `["example.com"]`. -/
theorem C7_checkCORS_substring (allowedOrigins : List String) (origin : Option String) :
    (checkCORS allowedOrigins origin = true ↔
      ∃ o, origin = some o ∧ o ≠ "" ∧
        ∃ a ∈ allowedOrigins, ∃ pre post : List Char, o.data = pre ++ a.data ++ post) ∧
    checkCORS ["example.com"] (some "https://app.example.com") = true ∧
    checkCORS allowedOrigins (some "") = false ∧
    checkCORS allowedOrigins none = false := by
  refine ⟨?_, by decide, by simp [checkCORS], rfl⟩
  cases origin with
  | none => simp [checkCORS]
  | some o =>
    by_cases ho : o = ""
    · subst ho
      simp [checkCORS]
    · simp only [checkCORS, if_neg ho]
      rw [List.any_eq_true]
      constructor
      · rintro ⟨a, ha, hinc⟩
        rw [strIncludes_eq_true_iff] at hinc
        exact ⟨o, rfl, ho, a, ha, hinc⟩
      · rintro ⟨o', ho', _, a, ha, hps⟩
        have : o = o' := by injection ho'
        subst this
        exact ⟨a, ha, (strIncludes_eq_true_iff o a).mpr hps⟩

/-! ## Lemmas about the lead schema -/

/-- Boolean success test for `safeParse`. -/
def isOkB : Except (List Issue) LeadRaw → Bool
  | .ok _ => true
  | .error _ => false

lemma isValidEmail_empty_false : isValidEmail "" = false := by decide

lemma nameIssues_nil_iff (d : LeadRaw) :
    nameIssues d = [] ↔ 2 ≤ d.name.length := by
  unfold nameIssues
  split_ifs with h
  · constructor
    · intro hx
      exact absurd hx (by simp)
    · intro hx
      omega
  · constructor
    · intro _
      omega
    · intro _
      rfl

lemma emailIssues_nil_iff (d : LeadRaw) :
    emailIssues d = [] ↔ ∀ e, d.email = some e → isValidEmail e = true := by
  unfold emailIssues
  cases he : d.email with
  | none => simp
  | some e =>
    show (if isValidEmail e = true then ([] : List Issue) else [⟨"email", "Email inválido"⟩]) = [] ↔ _
    split_ifs with h
    · simp [h]
    · simp [h]

lemma phoneIssues_nil_iff (d : LeadRaw) :
    phoneIssues d = [] ↔ ∀ p, d.phone = some p → 9 ≤ p.length := by
  unfold phoneIssues
  cases hp : d.phone with
  | none => simp
  | some p =>
    show (if p.length < 9 then [(⟨"phone", "Teléfono inválido"⟩ : Issue)] else []) = [] ↔ _
    split_ifs with h
    · simp
      omega
    · simp
      omega

lemma leadIssues_nil_iff (d : LeadRaw) :
    leadIssues d = [] ↔
      (2 ≤ d.name.length ∧ (∀ e, d.email = some e → isValidEmail e = true) ∧
       ∀ p, d.phone = some p → 9 ≤ p.length) := by
  unfold leadIssues
  rw [List.append_eq_nil, List.append_eq_nil, nameIssues_nil_iff, emailIssues_nil_iff,
    phoneIssues_nil_iff, and_assoc]

lemma leadRefineIssues_nil_iff (d : LeadRaw) :
    leadRefineIssues d = [] ↔ (jsTruthy d.email || jsTruthy d.phone) = true := by
  unfold leadRefineIssues
  split_ifs with h
  · simp [h]
  · simpa using h

lemma leadSafeParse_ok_iff (d : LeadRaw) :
    isOkB (leadSafeParse d) = true ↔ leadIssues d = [] ∧ leadRefineIssues d = [] := by
  simp only [leadSafeParse]
  split_ifs with h1 h2
  · rw [List.isEmpty_iff] at h1 h2
    simp [isOkB, h1, h2]
  · rw [List.isEmpty_iff] at h1
    simp [isOkB, h1]
    intro h
    exact absurd (by rw [h]; rfl : (leadRefineIssues d).isEmpty = true) h2
  · simp [isOkB]
    intro h
    exact absurd (by rw [h]; rfl : (leadIssues d).isEmpty = true) h1

/-- C8: `LeadSchema` accepts a record exactly when the name has at least 2
characters, a present email is a valid email, a present phone has at least 9
characters, and at least one of email or phone is present; the record
`name:"Al"` with neither contact channel is rejected with exactly the
contact-channel violation, and `name:"Alice"`, `email:"a@b.com"` is
accepted. -/
theorem C8_lead_schema_iff (d : LeadRaw) :
    (isOkB (leadSafeParse d) = true ↔
      2 ≤ d.name.length ∧ (∀ e, d.email = some e → isValidEmail e = true) ∧
      (∀ p, d.phone = some p → 9 ≤ p.length) ∧ (d.email ≠ none ∨ d.phone ≠ none)) ∧
    leadSafeParse
      { name := "Al", email := none, phone := none, city := none, street := none,
        message := none, notes := none, source := none, utmSource := none,
        utmMedium := none, utmCampaign := none, utmTerm := none, utmContent := none,
        timestamp := none } =
      .error [⟨"email", "Debe proporcionar al menos email o teléfono"⟩] ∧
    isOkB (leadSafeParse
      { name := "Alice", email := some "a@b.com", phone := none, city := none,
        street := none, message := none, notes := none, source := none,
        utmSource := none, utmMedium := none, utmCampaign := none, utmTerm := none,
        utmContent := none, timestamp := none }) = true := by
  refine ⟨?_, rfl, rfl⟩
  rw [leadSafeParse_ok_iff, leadIssues_nil_iff, leadRefineIssues_nil_iff]
  constructor
  · rintro ⟨⟨h1, h2, h3⟩, hor⟩
    refine ⟨h1, h2, h3, ?_⟩
    rcases Bool.or_eq_true_iff.mp hor with he | hp
    · left
      cases hee : d.email with
      | none => rw [hee] at he; exact absurd he (by simp [jsTruthy])
      | some e => simp
    · right
      cases hpe : d.phone with
      | none => rw [hpe] at hp; exact absurd hp (by simp [jsTruthy])
      | some p => simp
  · rintro ⟨h1, h2, h3, hor⟩
    refine ⟨⟨h1, h2, h3⟩, ?_⟩
    rcases hor with he | hp
    · cases hee : d.email with
      | none => exact absurd hee he
      | some e =>
        have hv := h2 e hee
        have hne : e ≠ "" := by
          intro hq
          rw [hq, isValidEmail_empty_false] at hv
          exact absurd hv (by simp)
        rw [Bool.or_eq_true_iff]
        left
        simp [jsTruthy, hee, hne]
    · cases hpe : d.phone with
      | none => exact absurd hpe hp
      | some p =>
        have hlp := h3 p hpe
        have hne : p ≠ "" := by
          intro hq
          rw [hq] at hlp
          have : ("" : String).length = 0 := rfl
          omega
        rw [Bool.or_eq_true_iff]
        right
        simp [jsTruthy, hpe, hne]

/-! ## Lemmas about the rate limiter -/

lemma rlGet_rlSet (st : RLState) (k j : String) (v : RateRecord) :
    rlGet (rlSet st k v) j = if k = j then some v else rlGet st j := by
  induction st with
  | nil => simp [rlSet, rlGet, beq_iff_eq]
  | cons hd tl ih =>
    obtain ⟨k1, r1⟩ := hd
    by_cases h1 : k1 = k
    · subst h1
      simp only [rlSet, beq_self_eq_true, if_true, rlGet]
      by_cases h2 : k1 = j <;> simp [rlGet, h2]
    · simp only [rlSet, rlGet, beq_iff_eq, if_neg h1]
      by_cases h2 : k1 = j
      · subst h2
        have : ¬ k = k1 := fun hq => h1 hq.symm
        simp [rlGet, this]
      · simp [rlGet, beq_iff_eq, h2, ih]

lemma rlGet_mem (st : RLState) (key : String) (r : RateRecord)
    (h : rlGet st key = some r) : (key, r) ∈ st := by
  induction st with
  | nil => exact absurd h (by simp [rlGet])
  | cons hd tl ih =>
    obtain ⟨k1, r1⟩ := hd
    by_cases h1 : k1 = key
    · subst h1
      rw [rlGet, if_pos (by simp)] at h
      injection h with h
      subst h
      exact List.mem_cons_self _ _
    · rw [rlGet, if_neg (by simp [h1])] at h
      exact List.mem_cons_of_mem _ (ih h)

lemma mem_rlSet (st : RLState) (k : String) (v : RateRecord) :
    ∀ q ∈ rlSet st k v, q = (k, v) ∨ q ∈ st := by
  induction st with
  | nil => simp [rlSet]
  | cons hd tl ih =>
    obtain ⟨k1, r1⟩ := hd
    intro q hq
    by_cases h1 : k1 = k
    · subst h1
      rw [rlSet, if_pos (by simp)] at hq
      rcases List.mem_cons.mp hq with rfl | hq
      · exact Or.inl rfl
      · exact Or.inr (List.mem_cons_of_mem _ hq)
    · rw [rlSet, if_neg (by simp [h1])] at hq
      rcases List.mem_cons.mp hq with rfl | hq
      · exact Or.inr (List.mem_cons_self _ _)
      · rcases ih q hq with h | h
        · exact Or.inl h
        · exact Or.inr (List.mem_cons_of_mem _ h)

/-- Increment step of a window run: starting from an entry `⟨c, R⟩` with room
left in the window, every call at an instant not beyond `R` is allowed and
just increments the counter, keeping the expiry `R`. -/
lemma rlRun_within (key : String) (limit : Nat) (windowMs R : Int) :
    ∀ (ts : List Int) (st : RLState) (c : Nat),
      rlGet st key = some ⟨c, R⟩ → c + ts.length ≤ limit → (∀ t ∈ ts, t ≤ R) →
      (rlRun key limit windowMs st ts).1 = List.replicate ts.length true ∧
      rlGet (rlRun key limit windowMs st ts).2 key = some ⟨c + ts.length, R⟩ := by
  intro ts
  induction ts with
  | nil =>
    intro st c h1 _ _
    exact ⟨rfl, by simpa using h1⟩
  | cons t ts ih =>
    intro st c h1 h2 h3
    have hnow : ¬ (t > R) := by
      have := h3 t (by simp)
      omega
    have hcnt : ¬ (c ≥ limit) := by
      simp only [List.length_cons] at h2
      omega
    have hstep : checkRateLimit st t key limit windowMs =
        (true, rlSet st key ⟨c + 1, R⟩) := by
      simp [checkRateLimit, h1, hnow, hcnt]
    have hrec : rlGet (rlSet st key ⟨c + 1, R⟩) key = some ⟨c + 1, R⟩ := by
      rw [rlGet_rlSet, if_pos rfl]
    obtain ⟨ha, hb⟩ := ih (rlSet st key ⟨c + 1, R⟩) (c + 1) hrec
      (by simp only [List.length_cons] at h2; omega)
      (fun u hu => h3 u (List.mem_cons_of_mem _ hu))
    refine ⟨?_, ?_⟩
    · simp [rlRun, hstep, ha, List.replicate_succ]
    · have harith : c + 1 + ts.length = c + (t :: ts).length := by
        simp only [List.length_cons]
        omega
      rw [← harith]
      simpa [rlRun, hstep] using hb

/-- C5: the fixed-window behaviour of `checkRateLimit`.  From a state with no
entry for the identifier, a first call at `t0` and `limit − 1` further calls
within the window `[t0, t0 + W]` are all allowed, leaving the entry at
`⟨limit, t0 + W⟩`; the next call still within the window (the `(limit+1)`-th)
is denied without changing the state; and the first call strictly after the
window expiry is allowed again, resetting the entry to count 1 with expiry
`t2 + W`. -/
theorem C5_rate_limit_fixed_window (st : RLState) (key : String) (limit : Nat)
    (windowMs t0 : Int) (ts : List Int) (t1 t2 : Int)
    (hfresh : rlGet st key = none)
    (hlen : ts.length + 1 = limit)
    (hts : ∀ t ∈ ts, t ≤ t0 + windowMs)
    (ht1 : t1 ≤ t0 + windowMs)
    (ht2 : t0 + windowMs < t2) :
    (rlRun key limit windowMs st (t0 :: ts)).1 = List.replicate limit true ∧
    rlGet (rlRun key limit windowMs st (t0 :: ts)).2 key = some ⟨limit, t0 + windowMs⟩ ∧
    (checkRateLimit (rlRun key limit windowMs st (t0 :: ts)).2 t1 key limit windowMs).1 = false ∧
    (checkRateLimit (rlRun key limit windowMs st (t0 :: ts)).2 t1 key limit windowMs).2 =
      (rlRun key limit windowMs st (t0 :: ts)).2 ∧
    (checkRateLimit (rlRun key limit windowMs st (t0 :: ts)).2 t2 key limit windowMs).1 = true ∧
    rlGet (checkRateLimit (rlRun key limit windowMs st (t0 :: ts)).2 t2 key limit windowMs).2 key =
      some ⟨1, t2 + windowMs⟩ := by
  have hstep0 : checkRateLimit st t0 key limit windowMs =
      (true, rlSet st key ⟨1, t0 + windowMs⟩) := by
    simp [checkRateLimit, hfresh]
  have hrec0 : rlGet (rlSet st key ⟨1, t0 + windowMs⟩) key = some ⟨1, t0 + windowMs⟩ := by
    rw [rlGet_rlSet, if_pos rfl]
  obtain ⟨ha, hb⟩ := rlRun_within key limit windowMs (t0 + windowMs) ts
    (rlSet st key ⟨1, t0 + windowMs⟩) 1 hrec0 (by omega) hts
  have hrun1 : (rlRun key limit windowMs st (t0 :: ts)).1 = List.replicate limit true := by
    simp only [rlRun, hstep0]
    rw [ha, ← hlen, List.replicate_succ]
  have hrun2 : rlGet (rlRun key limit windowMs st (t0 :: ts)).2 key =
      some ⟨limit, t0 + windowMs⟩ := by
    simp only [rlRun, hstep0]
    rw [hb]
    congr 2
    omega
  have hdeny : checkRateLimit (rlRun key limit windowMs st (t0 :: ts)).2 t1 key limit windowMs =
      (false, (rlRun key limit windowMs st (t0 :: ts)).2) := by
    simp [checkRateLimit, hrun2, ht1, not_lt.mpr ht1]
  have hreset : checkRateLimit (rlRun key limit windowMs st (t0 :: ts)).2 t2 key limit windowMs =
      (true, rlSet (rlRun key limit windowMs st (t0 :: ts)).2 key ⟨1, t2 + windowMs⟩) := by
    simp [checkRateLimit, hrun2, ht2]
  refine ⟨hrun1, hrun2, by rw [hdeny], by rw [hdeny], by rw [hreset], ?_⟩
  rw [hreset, rlGet_rlSet, if_pos rfl]

/-- C5 witness: with limit 2 and a 60000 ms window, two calls at instants 0
and 10 are allowed, a third call at 20 (within the window) is denied without
changing the state, and a call at 70000 (after expiry) is allowed with the
entry reset to count 1. -/
theorem C5_rate_limit_fixed_window_witness :
    (rlRun "1.2.3.4" 2 60000 [] [0, 10]).1 = List.replicate 2 true ∧
    rlGet (rlRun "1.2.3.4" 2 60000 [] [0, 10]).2 "1.2.3.4" = some ⟨2, 60000⟩ ∧
    (checkRateLimit (rlRun "1.2.3.4" 2 60000 [] [0, 10]).2 20 "1.2.3.4" 2 60000).1 = false ∧
    (checkRateLimit (rlRun "1.2.3.4" 2 60000 [] [0, 10]).2 20 "1.2.3.4" 2 60000).2 =
      (rlRun "1.2.3.4" 2 60000 [] [0, 10]).2 ∧
    (checkRateLimit (rlRun "1.2.3.4" 2 60000 [] [0, 10]).2 70000 "1.2.3.4" 2 60000).1 = true ∧
    rlGet (checkRateLimit (rlRun "1.2.3.4" 2 60000 [] [0, 10]).2 70000 "1.2.3.4" 2 60000).2
      "1.2.3.4" = some ⟨1, 130000⟩ :=
  C5_rate_limit_fixed_window [] "1.2.3.4" 2 60000 0 [10] 20 70000 rfl rfl
    (by intro t ht; simp at ht; omega) (by decide) (by decide)

/-- Entry-wise preservation of the count bounds by one `checkRateLimit` call. -/
lemma checkRateLimit_inv (L : Nat) (hL : 1 ≤ L) (st : RLState) (n : Int)
    (key : String) (w : Int)
    (hst : ∀ q ∈ st, 1 ≤ q.2.count ∧ q.2.count ≤ L) :
    ∀ q ∈ (checkRateLimit st n key L w).2, 1 ≤ q.2.count ∧ q.2.count ≤ L := by
  intro q hq
  unfold checkRateLimit at hq
  cases hg : rlGet st key with
  | none =>
    rw [hg] at hq
    simp only at hq
    rcases mem_rlSet st key ⟨1, n + w⟩ q hq with rfl | hmem
    · exact ⟨le_refl 1, hL⟩
    · exact hst q hmem
  | some r =>
    rw [hg] at hq
    simp only at hq
    split_ifs at hq with h1 h2
    · rcases mem_rlSet st key ⟨1, n + w⟩ q hq with rfl | hmem
      · exact ⟨le_refl 1, hL⟩
      · exact hst q hmem
    · exact hst q hq
    · rcases mem_rlSet st key ⟨r.count + 1, r.resetAt⟩ q hq with rfl | hmem
      · have := hst (key, r) (rlGet_mem st key r hg)
        simp only at this ⊢
        omega
      · exact hst q hmem

lemma rlRunCalls_inv (L : Nat) (hL : 1 ≤ L) :
    ∀ (calls : List (String × Int × Int)) (st : RLState),
      (∀ q ∈ st, 1 ≤ q.2.count ∧ q.2.count ≤ L) →
      ∀ q ∈ rlRunCalls L st calls, 1 ≤ q.2.count ∧ q.2.count ≤ L := by
  intro calls
  induction calls with
  | nil => intro st hst; exact hst
  | cons c rest ih =>
    intro st hst
    exact ih _ (checkRateLimit_inv L hL st c.2.1 c.1 c.2.2 hst)

/-- C10: after any finite sequence of `checkRateLimit` calls with a fixed
limit `L ≥ 1`, starting from the empty counter map, every stored entry has
`1 ≤ count ≤ L`; moreover a single call never removes an entry, and it
changes each key's entry only by leaving it alone, resetting it to
`⟨1, now + window⟩` (creation or window reset), or incrementing its count
with the expiry unchanged. -/
theorem C10_rate_limit_invariant (L : Nat) (calls : List (String × Int × Int))
    (st : RLState) (n : Int) (key key2 : String) (w : Int) (p : String × RateRecord)
    (hL : 1 ≤ L) (hp : p ∈ rlRunCalls L [] calls) :
    (1 ≤ p.2.count ∧ p.2.count ≤ L) ∧
    (rlGet st key2 ≠ none → rlGet (checkRateLimit st n key L w).2 key2 ≠ none) ∧
    (rlGet (checkRateLimit st n key L w).2 key2 = rlGet st key2 ∨
     rlGet (checkRateLimit st n key L w).2 key2 = some ⟨1, n + w⟩ ∨
     rlGet (checkRateLimit st n key L w).2 key2 =
       (rlGet st key2).map fun r => ⟨r.count + 1, r.resetAt⟩) := by
  have hprov : rlGet (checkRateLimit st n key L w).2 key2 = rlGet st key2 ∨
      rlGet (checkRateLimit st n key L w).2 key2 = some ⟨1, n + w⟩ ∨
      rlGet (checkRateLimit st n key L w).2 key2 =
        (rlGet st key2).map (fun r => ⟨r.count + 1, r.resetAt⟩) := by
    unfold checkRateLimit
    cases hg : rlGet st key with
    | none =>
      simp only
      rw [rlGet_rlSet]
      by_cases hk : key = key2
      · subst hk
        exact Or.inr (Or.inl (by rw [if_pos rfl]))
      · exact Or.inl (by rw [if_neg hk])
    | some r =>
      simp only
      split_ifs with h1 h2
      · rw [rlGet_rlSet]
        by_cases hk : key = key2
        · subst hk
          exact Or.inr (Or.inl (by rw [if_pos rfl]))
        · exact Or.inl (by rw [if_neg hk])
      · exact Or.inl rfl
      · rw [rlGet_rlSet]
        by_cases hk : key = key2
        · subst hk
          refine Or.inr (Or.inr ?_)
          rw [if_pos rfl, hg]
          rfl
        · exact Or.inl (by rw [if_neg hk])
  refine ⟨rlRunCalls_inv L hL calls [] (by simp) p hp, ?_, hprov⟩
  intro hne
  rcases hprov with h | h | h
  · rw [h]; exact hne
  · rw [h]; simp
  · rw [h]
    cases hg2 : rlGet st key2 with
    | none => exact absurd hg2 hne
    | some r2 => simp

/-- C10 witness: the invariant instantiated at limit 1 after two calls (one
creating an entry, one denied), together with the no-removal and provenance
facts for a concrete single call on another state. -/
theorem C10_rate_limit_invariant_witness :
    (1 ≤ (("a", (⟨1, 60000⟩ : RateRecord))).2.count ∧
      (("a", (⟨1, 60000⟩ : RateRecord))).2.count ≤ 1) ∧
    (rlGet [("b", (⟨1, 50⟩ : RateRecord))] "b" ≠ none →
      rlGet (checkRateLimit [("b", (⟨1, 50⟩ : RateRecord))] 7 "b" 1 100).2 "b" ≠ none) ∧
    (rlGet (checkRateLimit [("b", (⟨1, 50⟩ : RateRecord))] 7 "b" 1 100).2 "b" =
        rlGet [("b", (⟨1, 50⟩ : RateRecord))] "b" ∨
     rlGet (checkRateLimit [("b", (⟨1, 50⟩ : RateRecord))] 7 "b" 1 100).2 "b" =
        some ⟨1, 7 + 100⟩ ∨
     rlGet (checkRateLimit [("b", (⟨1, 50⟩ : RateRecord))] 7 "b" 1 100).2 "b" =
        (rlGet [("b", (⟨1, 50⟩ : RateRecord))] "b").map fun r => ⟨r.count + 1, r.resetAt⟩) :=
  C10_rate_limit_invariant 1 [("a", 0, 60000), ("a", 10, 60000)]
    [("b", (⟨1, 50⟩ : RateRecord))] 7 "b" "b" 100 ("a", (⟨1, 60000⟩ : RateRecord))
    (by decide) (by decide)

/-! ## Lemmas about the gate chain -/

lemma isFalsy_some_ne (s : String) (h : s ≠ "") : isFalsy (some s) = false := by
  simp [isFalsy, h]

/-- Reduction of the gate chain to the `expired` branch: once the CORS, API
key, rate-limit, body-presence and header-presence gates pass, a timestamp
failing the freshness check makes the chain stop with `.expired`, whatever
the signature header holds. -/
lemma securityGates_expired (cfg : Config) (now : Int) (st : RLState)
    (req : WebRequest) (sig ts : String)
    (h1 : checkCORS cfg.allowedOrigins req.origin = true)
    (h2 : checkAPIKey cfg.validApiKeys req.apiKey = true)
    (h3 : (checkRateLimit st now (resolveIp req) 20 60000).1 = true)
    (h4 : req.body ≠ "")
    (h5 : req.signature = some sig) (h6 : sig ≠ "")
    (h7 : req.timestamp = some ts) (h8 : ts ≠ "")
    (h9 : verifyTimestampNum now (parseIntDec ts) = false) :
    securityGates cfg now st req =
      (.expired, (checkRateLimit st now (resolveIp req) 20 60000).2) := by
  simp only [securityGates, h1, if_true, h2, h3, if_neg h4, h5, h7,
    isFalsy_some_ne sig h6, isFalsy_some_ne ts h8, Bool.or_self, Bool.false_eq_true,
    if_false, Option.getD_some, h9]

/-- C6: freshness is checked before signature validity.  For every request
passing the origin, API-key, rate-limit, body-presence and header-presence
gates whose timestamp fails the freshness check, the chain answers the 401
"Request expired" rejection for every signature header value whatsoever (in
particular for a valid one), so the signature is only ever verified after
the timestamp is accepted. -/
theorem C6_freshness_before_signature (cfg : Config) (now : Int) (st : RLState)
    (req : WebRequest) (sig ts : String)
    (h1 : checkCORS cfg.allowedOrigins req.origin = true)
    (h2 : checkAPIKey cfg.validApiKeys req.apiKey = true)
    (h3 : (checkRateLimit st now (resolveIp req) 20 60000).1 = true)
    (h4 : req.body ≠ "")
    (h5 : req.signature = some sig) (h6 : sig ≠ "")
    (h7 : req.timestamp = some ts) (h8 : ts ≠ "")
    (h9 : verifyTimestampNum now (parseIntDec ts) = false) :
    (securityGates cfg now st req).1 = .expired ∧
    gateResponse .expired = some (401, "Request expired") := by
  rw [securityGates_expired cfg now st req sig ts h1 h2 h3 h4 h5 h6 h7 h8 h9]
  exact ⟨rfl, rfl⟩

/-- C6 witness: a concrete request passing every earlier gate whose
correctly-formed but stale timestamp is rejected as expired. -/
theorem C6_freshness_before_signature_witness :
    (securityGates ⟨["example.com"], ["key1"], "secret"⟩ 1000000000 []
      ⟨some "https://app.example.com", some "key1", none, none, "body",
        some "deadbeef", some "0", none⟩).1 = .expired ∧
    gateResponse .expired = some (401, "Request expired") :=
  C6_freshness_before_signature ⟨["example.com"], ["key1"], "secret"⟩ 1000000000 []
    ⟨some "https://app.example.com", some "key1", none, none, "body",
      some "deadbeef", some "0", none⟩ "deadbeef" "0"
    (by decide) (by decide) (by decide) (by decide) rfl (by decide) rfl (by decide)
    (by decide)

/-- C9: the freshness gate fails closed on unparseable input.  For every
request passing the earlier gates whose timestamp header has no leading
decimal digits (so `parseInt` yields NaN, modelled `none`, and
`verifyTimestamp(NaN)` is false), the chain answers the 401 "Request
expired" rejection — for every signature header value, so it never reaches
signature verification or storage. -/
theorem C9_unparseable_timestamp_fails_closed (cfg : Config) (now : Int) (st : RLState)
    (req : WebRequest) (sig ts : String)
    (h1 : checkCORS cfg.allowedOrigins req.origin = true)
    (h2 : checkAPIKey cfg.validApiKeys req.apiKey = true)
    (h3 : (checkRateLimit st now (resolveIp req) 20 60000).1 = true)
    (h4 : req.body ≠ "")
    (h5 : req.signature = some sig) (h6 : sig ≠ "")
    (h7 : req.timestamp = some ts) (h8 : ts ≠ "")
    (h9 : parseIntDec ts = none) :
    (securityGates cfg now st req).1 = .expired ∧
    verifyTimestampNum now none = false ∧
    gateResponse .expired = some (401, "Request expired") := by
  have hfresh : verifyTimestampNum now (parseIntDec ts) = false := by
    rw [h9]
    rfl
  rw [securityGates_expired cfg now st req sig ts h1 h2 h3 h4 h5 h6 h7 h8 hfresh]
  exact ⟨rfl, rfl, rfl⟩

/-- C9 witness: the timestamp header `"abc"` does not parse and the request
is rejected as expired. -/
theorem C9_unparseable_timestamp_fails_closed_witness :
    (securityGates ⟨["example.com"], ["key1"], "secret"⟩ 1000000000 []
      ⟨some "https://app.example.com", some "key1", none, none, "body",
        some "deadbeef", some "abc", none⟩).1 = .expired ∧
    verifyTimestampNum 1000000000 none = false ∧
    gateResponse .expired = some (401, "Request expired") :=
  C9_unparseable_timestamp_fails_closed ⟨["example.com"], ["key1"], "secret"⟩ 1000000000 []
    ⟨some "https://app.example.com", some "key1", none, none, "body",
      some "deadbeef", some "abc", none⟩ "deadbeef" "abc"
    (by decide) (by decide) (by decide) (by decide) rfl (by decide) rfl (by decide)
    (by decide)

/-! ## The stored notes field (claim C2) -/

/-- A lead that validates successfully and carries both a `message` and a
`notes` value; used to exhibit the priority the code actually gives. -/
def leadC2 : LeadRaw :=
  { name := "Alice", email := some "a@b.com", phone := none, city := none,
    street := none, message := some "from message", notes := some "from notes",
    source := none, utmSource := none, utmMedium := none, utmCampaign := none,
    utmTerm := none, utmContent := none, timestamp := none }

/-- C2 counterexample: for a successfully validated lead carrying both
fields, the stored `notes` equals the payload's `message`, not its `notes`:
route.ts line 260 computes `message || notes`, so `message` is the priority
and `notes` the fallback — the opposite of the claim. -/
theorem C2_notes_priority_cex :
    isOkB (leadSafeParse leadC2) = true ∧
    leadC2.notes = some "from notes" ∧
    (mkLeadDB leadC2 none "1.2.3.4" none none "2026-01-01T00:00:00Z").notes =
      some "from message" ∧
    (mkLeadDB leadC2 none "1.2.3.4" none none "2026-01-01T00:00:00Z").notes ≠
      leadC2.notes := by
  refine ⟨rfl, rfl, rfl, ?_⟩
  intro h
  simp [mkLeadDB, jsOrElse, leadC2] at h

/-- C2 (amended): the stored record's `notes` field equals the payload's
`message` value whenever `message` is present and non-empty, and equals the
payload's `notes` value only when `message` is absent or empty — `message`
is the priority and `notes` the fallback. -/
theorem C2_notes_fallback_amended (l : LeadRaw) (origin : Option String) (ip : String)
    (ua : Option String) (tn : Option Int) (ra : String) :
    ((l.message = none ∨ l.message = some "") →
      (mkLeadDB l origin ip ua tn ra).notes = l.notes) ∧
    (∀ m, l.message = some m → m ≠ "" → (mkLeadDB l origin ip ua tn ra).notes = some m) := by
  constructor
  · rintro (h | h) <;> simp [mkLeadDB, jsOrElse, h]
  · intro m hm hne
    simp [mkLeadDB, jsOrElse, hm, hne]

/-- C2 witness: the amended statement applied to the concrete lead above. -/
theorem C2_notes_fallback_witness :
    (mkLeadDB leadC2 none "1.2.3.4" none none "2026-01-01T00:00:00Z").notes =
      some "from message" :=
  (C2_notes_fallback_amended leadC2 none "1.2.3.4" none none
    "2026-01-01T00:00:00Z").2 "from message" rfl (by decide)

end Leads
